import Mathlib

/-!
# Snowflake identifier allocator

A shallow embedding of `snowflake.go`: the bit-layout constants, `NewWorker`,
`Worker.GetId` and the two accessors, followed by theorems about them.

Go's `int64` values are integers kept inside the signed 64-bit range by
`wrap64`; the bitwise operators act on the two's-complement bit pattern
`bits64`.  The mutex of `Worker` is not modelled: calls are taken one after
another, which is the order the lock imposes.
-/

namespace Snowflake

/-! ## Signed 64-bit arithmetic -/

/-- Reduction of an integer to the signed 64-bit range (two's complement wrap-around). -/
def wrap64 (x : Int) : Int :=
  if x % 18446744073709551616 < 9223372036854775808 then x % 18446744073709551616
  else x % 18446744073709551616 - 18446744073709551616

/-- The 64-bit two's-complement bit pattern of an integer, as a natural number. -/
def bits64 (x : Int) : Nat := (x % 18446744073709551616).toNat

/-- Go `a + b` on `int64`. -/
def add64 (a b : Int) : Int := wrap64 (a + b)

/-- Go `a - b` on `int64`. -/
def sub64 (a b : Int) : Int := wrap64 (a - b)

/-- Go `x << k` on `int64`: bits shifted out are lost. -/
def shl64 (x : Int) (k : Nat) : Int := wrap64 (x * 2 ^ k)

/-- Go `x >> k` on `int64`: arithmetic shift, rounding toward minus infinity. -/
def shr64 (x : Int) (k : Nat) : Int := x / 2 ^ k

/-- Go `a | b` on `int64`. -/
def or64 (a b : Int) : Int := wrap64 ((bits64 a ||| bits64 b : Nat) : Int)

/-- Go `a & b` on `int64`. -/
def and64 (a b : Int) : Int := wrap64 ((bits64 a &&& bits64 b : Nat) : Int)

/-- Go `a ^ b` (exclusive or) on `int64`. -/
def xor64 (a b : Int) : Int := wrap64 ((bits64 a ^^^ bits64 b : Nat) : Int)

/-! ## Constants (`snowflake.go`, lines 13-21) -/

/-- Number of bits of the node field (`uint8`). -/
def workerBits : Nat := 10

/-- Number of bits of the sequence field (`uint8`). -/
def numberBits : Nat := 12

/-- Largest node identifier: `-1 ^ (-1 << workerBits)`. -/
def workerMax : Int := xor64 (-1) (shl64 (-1) workerBits)

/-- Largest sequence number: `-1 ^ (-1 << numberBits)`. -/
def numberMax : Int := xor64 (-1) (shl64 (-1) numberBits)

/-- Left shift of the timestamp field (`uint8`). -/
def timeShift : Nat := (workerBits + numberBits) % 256

/-- Left shift of the node field (`uint8`). -/
def workerShift : Nat := numberBits

/-- Custom epoch, in milliseconds since 1970-01-01. -/
def startTime : Int := 1681288475388

/-! ## The clock -/

/-- A clock is the sequence of instants that successive `time.Now()` calls observe,
each given as its nanosecond count since the Unix epoch. -/
abbrev Clock := Nat → Int

/-- The reading `time.Now().UnixNano() / 1e6` of line 57: Go integer division
truncates toward zero. -/
def unixMilli (t : Int) : Int := Int.tdiv t 1000000

/-- The reading `time.Now().UnixMicro()` of line 69: whole microseconds since the
Unix epoch. -/
def unixMicro (t : Int) : Int := Int.fdiv t 1000

/-- A clock that never moves backward. -/
def Clock.Forward (clock : Clock) : Prop := ∀ i j, i ≤ j → clock i ≤ clock j

/-- A clock all of whose instants lie in the usable range of the timestamp field. -/
def Clock.Usable (clock : Clock) : Prop :=
  ∀ i, startTime ≤ unixMilli (clock i) ∧ unixMilli (clock i) < startTime + 2 ^ 41

/-! ## The worker -/

/-- The fields of `Worker` other than the mutex. -/
structure Worker where
  lastTimestamp : Int
  workerId : Int
  number : Int
  deriving DecidableEq, Repr

/-- `NewWorker`: validates the node identifier and builds a fresh worker. -/
def NewWorker (workerId : Int) : Except String Worker :=
  if workerId < 0 ∨ workerId > workerMax then
    .error "workerId ranges from 0 - 1023"
  else
    .ok { lastTimestamp := 0, workerId := workerId, number := 0 }

/-- The exhaustion loop `for now <= w.lastTimestamp { now = time.Now().UnixMicro() }`.
`pos` is the index of the next clock reading; `fuel` bounds the number of
iterations, and `none` means the bound was reached with the loop still running. -/
def waitLoop (clock : Clock) (last : Int) : Nat → Nat → Int → Option (Int × Nat)
  | 0, pos, now => if now ≤ last then none else some (now, pos)
  | fuel + 1, pos, now =>
    if now ≤ last then waitLoop clock last fuel (pos + 1) (unixMicro (clock pos))
    else some (now, pos)

/-- Lines 57-79 of `GetId`: read the clock, update `number` and `lastTimestamp`.
Returns the final value of the local `now`, the updated worker and the index of
the next unread clock instant.  The source sets `reset` again after the wait loop and
resets in a separate `if reset`; here each path ends with the reset it reaches. -/
def advance (fuel : Nat) (clock : Clock) (pos : Nat) (w : Worker) :
    Option (Int × Worker × Nat) :=
  let now := unixMilli (clock pos)
  let reset := !(decide (w.lastTimestamp = now))
  if !reset then
    let w1 := { w with number := add64 w.number 1 }
    if w1.number > numberMax then
      match waitLoop clock w1.lastTimestamp fuel (pos + 1) now with
      | none => none
      | some (now1, pos1) => some (now1, { w1 with number := 0, lastTimestamp := now1 }, pos1)
    else
      some (now, w1, pos + 1)
  else
    some (now, { w with number := 0, lastTimestamp := now }, pos + 1)

/-- Line 82: `((now - startTime) << (timeShift - 0)) | (w.workerId << workerShift) | (w.number)`. -/
def composeID (now : Int) (w : Worker) : Int :=
  or64 (or64 (shl64 (sub64 now startTime) (timeShift - 0)) (shl64 w.workerId workerShift))
    w.number

/-- `Worker.GetId`: the identifier returned, the worker after the call and the index of
the next unread clock instant; `none` when the wait loop outlasts `fuel`. -/
def GetId (fuel : Nat) (clock : Clock) (pos : Nat) (w : Worker) : Option (Int × Worker × Nat) :=
  match advance fuel clock pos w with
  | none => none
  | some (now, w1, pos1) => some (composeID now w1, w1, pos1)

/-- `Worker.GetLastTimestamp`. -/
def GetLastTimestamp (w : Worker) : Int := w.lastTimestamp

/-- `Worker.GetWorkerId`. -/
def GetWorkerId (w : Worker) : Int := w.workerId

/-- Consecutive `GetId` calls on one worker, `n` of them, as the lock serialises them:
the identifiers in issuance order, the final worker and the next clock index. -/
def GetIds (fuel : Nat) (clock : Clock) : Nat → Nat → Worker → Option (List Int × Worker × Nat)
  | 0, pos, w => some ([], w, pos)
  | n + 1, pos, w =>
    match GetId fuel clock pos w with
    | none => none
    | some (id, w1, pos1) =>
      match GetIds fuel clock n pos1 w1 with
      | none => none
      | some (ids, w2, pos2) => some (id :: ids, w2, pos2)

/-- Worker states that arise from `NewWorker` followed by any number of `GetId` calls,
each under an arbitrary clock. -/
inductive Reachable : Worker → Prop
  | new {workerId : Int} {w : Worker} : NewWorker workerId = .ok w → Reachable w
  | getId {w w1 : Worker} {fuel pos pos1 : Nat} {clock : Clock} {id : Int} :
      Reachable w → GetId fuel clock pos w = some (id, w1, pos1) → Reachable w1

/-- The field ranges that every reachable worker satisfies. -/
def Worker.InRange (w : Worker) : Prop :=
  0 ≤ w.workerId ∧ w.workerId ≤ 1023 ∧ 0 ≤ w.number ∧ w.number ≤ 4095

/-- A clock whose instants advance by one nanosecond per reading for the first 5000
readings and stand still afterwards; every instant lies in millisecond
`1681288475389 = startTime + 1`. -/
def slowClock : Clock := fun i => 1681288475389000000 + ((min i 5000 : Nat) : Int)

/-- A clock that reads millisecond `startTime + 2` first and millisecond
`startTime + 1` afterwards: one backward jump. -/
def backwardClock : Clock := fun i => if i = 0 then 1681288475390000000 else 1681288475389000000

/-- A clock that reads millisecond `startTime + 1`, then `startTime + 2`, then jumps back
to `startTime + 1` and stays there. -/
def returningClock : Clock := fun i => if i = 1 then 1681288475390000000 else 1681288475389000000

/-- A clock standing at the first millisecond past the 41-bit range,
`startTime + 2 ^ 41 = 3880311730940`. -/
def edgeClock : Clock := fun _ => 3880311730940000000

/-- `Worker.GetLastTimestamp` as a step on the worker: the value returned and the worker
after the call.  The body is the single statement `return w.lastTimestamp`. -/
def GetLastTimestamp.step (w : Worker) : Int × Worker := (w.lastTimestamp, w)

/-- `Worker.GetWorkerId` as a step on the worker: the value returned and the worker after
the call.  The body is the single statement `return w.workerId`. -/
def GetWorkerId.step (w : Worker) : Int × Worker := (w.workerId, w)

/-! ## Arithmetic of the 64-bit operations -/

theorem wrap64_of_range {x : Int} (h0 : -9223372036854775808 ≤ x)
    (h1 : x < 9223372036854775808) : wrap64 x = x := by
  unfold wrap64; split <;> omega

theorem wrap64_range (x : Int) :
    -9223372036854775808 ≤ wrap64 x ∧ wrap64 x < 9223372036854775808 := by
  unfold wrap64; split <;> omega

theorem and64_1023 (x : Int) : and64 x 1023 = x % 1024 := by
  have h : bits64 1023 = 2 ^ 10 - 1 := by decide
  unfold and64
  rw [h, Nat.and_pow_two_sub_one_eq_mod]
  unfold bits64 wrap64
  split <;> omega

theorem and64_4095 (x : Int) : and64 x 4095 = x % 4096 := by
  have h : bits64 4095 = 2 ^ 12 - 1 := by decide
  unfold and64
  rw [h, Nat.and_pow_two_sub_one_eq_mod]
  unfold bits64 wrap64
  split <;> omega

/-- Or-ing a value below `2 ^ 22` into a word whose low 22 bits are clear adds it. -/
theorem or64_add_22 {a b : Int} (ha0 : -9223372036854775808 ≤ a)
    (ha1 : a < 9223372036854775808) (ha : a % 4194304 = 0) (hb0 : 0 ≤ b)
    (hb1 : b < 4194304) : or64 a b = a + b := by
  have hA : bits64 a = 2 ^ 22 * (bits64 a / 2 ^ 22) := by unfold bits64; omega
  have hB : bits64 b = b.toNat := by unfold bits64; omega
  have hlt : b.toNat < 2 ^ 22 := by omega
  unfold or64
  rw [hA, hB, ← Nat.mul_add_lt_is_or hlt]
  unfold bits64 wrap64
  split <;> omega

/-- Or-ing a value below `2 ^ 12` into a word whose low 12 bits are clear adds it. -/
theorem or64_add_12 {a b : Int} (ha0 : -9223372036854775808 ≤ a)
    (ha1 : a < 9223372036854775808) (ha : a % 4096 = 0) (hb0 : 0 ≤ b)
    (hb1 : b < 4096) : or64 a b = a + b := by
  have hA : bits64 a = 2 ^ 12 * (bits64 a / 2 ^ 12) := by unfold bits64; omega
  have hB : bits64 b = b.toNat := by unfold bits64; omega
  have hlt : b.toNat < 2 ^ 12 := by omega
  unfold or64
  rw [hA, hB, ← Nat.mul_add_lt_is_or hlt]
  unfold bits64 wrap64
  split <;> omega

theorem timeShift_eq : timeShift - 0 = 22 := by decide

theorem workerShift_eq : workerShift = 12 := by decide

theorem workerMax_eq : workerMax = 1023 := by decide

theorem numberMax_eq : numberMax = 4095 := by decide

/-- The timestamp part of an identifier, `(now - startTime) << 22`, wraps once. -/
theorem shl64_sub64 (now : Int) :
    shl64 (sub64 now startTime) 22 = wrap64 ((now - startTime) * 4194304) := by
  unfold shl64 sub64 wrap64
  split <;> split <;> split <;> omega

/-- The timestamp part of an identifier has its low 22 bits clear. -/
theorem timePart_mod (now : Int) : wrap64 ((now - startTime) * 4194304) % 4194304 = 0 := by
  unfold wrap64; split <;> omega

/-- With the node and sequence fields in range the three parts of an identifier do not
overlap, and the bitwise or of line 82 is their sum. -/
theorem composeID_eq (now : Int) (w : Worker) (hw0 : 0 ≤ w.workerId)
    (hw1 : w.workerId ≤ 1023) (hn0 : 0 ≤ w.number) (hn1 : w.number ≤ 4095) :
    composeID now w
      = wrap64 ((now - startTime) * 4194304) + w.workerId * 4096 + w.number := by
  have hT := wrap64_range ((now - startTime) * 4194304)
  have hTm := timePart_mod now
  have hW : shl64 w.workerId 12 = w.workerId * 4096 := by
    unfold shl64 wrap64; split <;> omega
  unfold composeID
  rw [timeShift_eq, workerShift_eq, shl64_sub64, hW,
    or64_add_22 hT.1 hT.2 hTm (by omega) (by omega),
    or64_add_12 (by omega) (by omega) (by omega) hn0 (by omega)]

/-! ## The three paths of `GetId` -/

/-- The wait loop only ever returns a time value later than `lastTimestamp`. -/
theorem waitLoop_gt {clock : Clock} {last : Int} {fuel pos : Nat} {now now1 : Int} {pos1 : Nat}
    (h : waitLoop clock last fuel pos now = some (now1, pos1)) : last < now1 := by
  induction fuel generalizing pos now with
  | zero =>
    unfold waitLoop at h
    split at h
    · cases h
    · cases h; omega
  | succ n ih =>
    unfold waitLoop at h
    split at h
    · exact ih h
    · cases h; omega

/-- New bucket: the reading differs from `lastTimestamp`. -/
theorem advance_new {fuel : Nat} {clock : Clock} {pos : Nat} {w : Worker}
    (h : w.lastTimestamp ≠ unixMilli (clock pos)) :
    advance fuel clock pos w
      = some (unixMilli (clock pos),
          { w with number := 0, lastTimestamp := unixMilli (clock pos) }, pos + 1) := by
  simp [advance, h]

/-- Same bucket with room left in the sequence. -/
theorem advance_same {fuel : Nat} {clock : Clock} {pos : Nat} {w : Worker}
    (h : w.lastTimestamp = unixMilli (clock pos)) (h0 : 0 ≤ w.number) (h1 : w.number < 4095) :
    advance fuel clock pos w
      = some (unixMilli (clock pos), { w with number := w.number + 1 }, pos + 1) := by
  have ha : add64 w.number 1 = w.number + 1 := wrap64_of_range (by omega) (by omega)
  have hn : ¬ (w.number + 1 > 4095) := by omega
  simp [advance, h, ha, numberMax_eq, hn]

/-- Exhausted bucket: the call goes through the wait loop. -/
theorem advance_full {fuel : Nat} {clock : Clock} {pos : Nat} {w : Worker}
    (h : w.lastTimestamp = unixMilli (clock pos)) (h1 : w.number = 4095) :
    advance fuel clock pos w
      = match waitLoop clock w.lastTimestamp fuel (pos + 1) (unixMilli (clock pos)) with
        | none => none
        | some (now1, pos1) =>
          some (now1, { w with number := 0, lastTimestamp := now1 }, pos1) := by
  have ha : add64 w.number 1 = 4096 := by rw [h1]; decide
  simp [advance, h, ha, numberMax_eq]

/-- What one call does to the worker, whichever path it takes. -/
theorem advance_spec {fuel : Nat} {clock : Clock} {pos : Nat} {w w1 : Worker} {now : Int}
    {pos1 : Nat} (hw : w.InRange) (h : advance fuel clock pos w = some (now, w1, pos1)) :
    w1.workerId = w.workerId ∧ w1.InRange ∧
      (w1.lastTimestamp = w.lastTimestamp ∨ w1.lastTimestamp = now) := by
  obtain ⟨hw0, hw1, hn0, hn1⟩ := hw
  by_cases hT : w.lastTimestamp = unixMilli (clock pos)
  · by_cases hN : w.number < 4095
    · rw [advance_same hT hn0 hN] at h
      cases h
      exact ⟨rfl, ⟨hw0, hw1, by show 0 ≤ w.number + 1; omega, by show w.number + 1 ≤ 4095; omega⟩,
        Or.inl rfl⟩
    · rw [advance_full hT (by omega)] at h
      split at h
      · cases h
      · cases h
        exact ⟨rfl, ⟨hw0, hw1, le_refl _, by show (0 : Int) ≤ 4095; decide⟩, Or.inr rfl⟩
  · rw [advance_new hT] at h
    cases h
    exact ⟨rfl, ⟨hw0, hw1, le_refl _, by show (0 : Int) ≤ 4095; decide⟩, Or.inr rfl⟩

/-- A call of `GetId` that returns went through `advance`. -/
theorem GetId_eq_some {fuel : Nat} {clock : Clock} {pos : Nat} {w w1 : Worker} {id : Int}
    {pos1 : Nat} (h : GetId fuel clock pos w = some (id, w1, pos1)) :
    ∃ now, advance fuel clock pos w = some (now, w1, pos1) ∧ id = composeID now w1 := by
  cases hadv : advance fuel clock pos w with
  | none => simp [GetId, hadv] at h
  | some r =>
    obtain ⟨now, w2, pos2⟩ := r
    simp only [GetId, hadv, Option.some.injEq, Prod.mk.injEq] at h
    obtain ⟨h1, h2, h3⟩ := h
    subst h2 h3
    exact ⟨now, rfl, h1.symm⟩

theorem GetId_of_advance {fuel : Nat} {clock : Clock} {pos : Nat} {w w1 : Worker} {now : Int}
    {pos1 : Nat} (h : advance fuel clock pos w = some (now, w1, pos1)) :
    GetId fuel clock pos w = some (composeID now w1, w1, pos1) := by
  simp [GetId, h]

theorem NewWorker_inRange {workerId : Int} {w : Worker} (h : NewWorker workerId = .ok w) :
    w.InRange ∧ w = ⟨0, workerId, 0⟩ := by
  unfold NewWorker at h
  rw [workerMax_eq] at h
  split at h
  · cases h
  · cases h
    refine ⟨⟨?_, ?_, le_refl _, by show (0 : Int) ≤ 4095; decide⟩, rfl⟩ <;> (simp only []; omega)

theorem Reachable.inRange {w : Worker} (h : Reachable w) : w.InRange := by
  induction h with
  | new hnew => exact (NewWorker_inRange hnew).1
  | getId _ hg ih =>
    obtain ⟨now, ha, _⟩ := GetId_eq_some hg
    exact (advance_spec ih ha).2.1

end Snowflake
namespace Snowflake

/-! ## Construction -/

/-- C3: `NewWorker workerId` succeeds exactly when `0 ≤ workerId ≤ 1023`, and for every
other value it returns the error whose message states the valid range; in particular
`0` and `1023` are accepted, `-1` and `1024` are rejected. -/
theorem NewWorker_ok_iff (workerId : Int) :
    ((∃ w, NewWorker workerId = .ok w) ↔ (0 ≤ workerId ∧ workerId ≤ 1023)) ∧
    (NewWorker workerId = .error "workerId ranges from 0 - 1023"
      ↔ ¬ (0 ≤ workerId ∧ workerId ≤ 1023)) ∧
    NewWorker 0 = .ok ⟨0, 0, 0⟩ ∧ NewWorker 1023 = .ok ⟨0, 1023, 0⟩ ∧
    NewWorker (-1) = .error "workerId ranges from 0 - 1023" ∧
    NewWorker 1024 = .error "workerId ranges from 0 - 1023" := by
  refine ⟨?_, ?_, rfl, rfl, rfl, rfl⟩
  · unfold NewWorker
    rw [workerMax_eq]
    split
    · constructor
      · rintro ⟨w, hw⟩; cases hw
      · intro h; omega
    · constructor
      · intro _; omega
      · intro _; exact ⟨_, rfl⟩
  · unfold NewWorker
    rw [workerMax_eq]
    split
    · constructor
      · intro _; omega
      · intro _; rfl
    · constructor
      · intro h; cases h
      · intro h; omega

/-! ## Bit layout -/

/-- The three fields read back from an identifier composed with in-range node and
sequence fields. -/
theorem composeID_fields (now : Int) (w : Worker) (hw : w.InRange) :
    and64 (shr64 (composeID now w) 12) 1023 = w.workerId ∧
    and64 (composeID now w) 4095 = w.number ∧
    shr64 (composeID now w) 22 = wrap64 ((now - startTime) * 4194304) / 4194304 := by
  obtain ⟨hw0, hw1, hn0, hn1⟩ := hw
  have hT := timePart_mod now
  rw [and64_1023, and64_4095, composeID_eq now w hw0 hw1 hn0 hn1]
  unfold shr64
  refine ⟨?_, ?_, ?_⟩ <;> omega

/-- C4: when a reachable worker's call composes its identifier from a time value `now`
with `0 ≤ now - startTime < 2 ^ 41`, the documented shifts recover the triple:
`id >> 22 = now - startTime`, `(id >> 12) & 1023 = workerId` and `id & 4095` is the
worker's sequence number after the call. -/
theorem getId_roundtrip {w w1 : Worker} {fuel pos pos1 : Nat} {clock : Clock} {now : Int}
    (hr : Reachable w) (h : advance fuel clock pos w = some (now, w1, pos1))
    (h0 : 0 ≤ now - startTime) (h1 : now - startTime < 2 ^ 41) :
    ∃ id, GetId fuel clock pos w = some (id, w1, pos1) ∧
      shr64 id 22 = now - startTime ∧
      and64 (shr64 id 12) 1023 = w.workerId ∧
      and64 id 4095 = w1.number := by
  obtain ⟨hid, hin, _⟩ := advance_spec hr.inRange h
  obtain ⟨f1, f2, f3⟩ := composeID_fields now w1 hin
  refine ⟨composeID now w1, GetId_of_advance h, ?_, by rw [f1, hid], f2⟩
  rw [f3, wrap64_of_range (by omega) (by omega)]
  omega

/-- Instance of the C4 round trip: the first call on `NewWorker 1` under `slowClock`. -/
theorem getId_roundtrip_witness :
    ∃ id, GetId 0 slowClock 0 ⟨0, 1, 0⟩ = some (id, ⟨1681288475389, 1, 0⟩, 1) ∧
      shr64 id 22 = 1681288475389 - startTime ∧
      and64 (shr64 id 12) 1023 = 1 ∧
      and64 id 4095 = 0 :=
  getId_roundtrip (Reachable.new (show NewWorker 1 = .ok ⟨0, 1, 0⟩ from rfl))
    (show advance 0 slowClock 0 ⟨0, 1, 0⟩ = some (1681288475389, ⟨1681288475389, 1, 0⟩, 1) by decide)
    (by decide) (by decide)


/-! ## Runs of calls inside one millisecond -/

/-- Calls that stay in the current bucket with room left: each increments the sequence
number, reads the clock once and never reaches the wait loop. -/
theorem GetIds_same (fuel : Nat) (clock : Clock) (T wid : Int) :
    ∀ (n j pos : Nat), j + n ≤ 4095 → (∀ i, i < n → unixMilli (clock (pos + i)) = T) →
      GetIds fuel clock n pos ⟨T, wid, (j : Int)⟩
        = some ((List.range' (j + 1) n).map (fun (k : Nat) => composeID T ⟨T, wid, (k : Int)⟩),
            ⟨T, wid, ((j + n : Nat) : Int)⟩, pos + n) := by
  intro n
  induction n with
  | zero => intro j pos _ _; simp [GetIds]
  | succ n ih =>
    intro j pos hj hT
    have h0 : unixMilli (clock pos) = T := by simpa using hT 0 (Nat.succ_pos n)
    have hadv : advance fuel clock pos ⟨T, wid, (j : Int)⟩
        = some (T, ⟨T, wid, ((j + 1 : Nat) : Int)⟩, pos + 1) := by
      rw [advance_same (by simp [h0]) (by simp) (by simp only []; omega), h0]
      simp
    have hrest := ih (j + 1) (pos + 1) (by omega) (fun i hi => by
      have := hT (i + 1) (by omega)
      rwa [show pos + (i + 1) = pos + 1 + i by omega] at this)
    unfold GetIds
    rw [GetId_of_advance hadv]
    simp only [hrest, List.range'_succ, List.map_cons]
    have e1 : j + 1 + n = j + (n + 1) := by omega
    have e2 : pos + 1 + n = pos + (n + 1) := by omega
    rw [e1, e2]

/-- A call whose reading differs from `lastTimestamp` followed by calls that read the
same millisecond: sequence numbers `0, 1, ..., n`. -/
theorem GetIds_fresh_bucket (fuel : Nat) (clock : Clock) (w : Worker) (T : Int) (n pos : Nat)
    (hn : n ≤ 4095) (hT : ∀ i, i < n + 1 → unixMilli (clock (pos + i)) = T)
    (hne : T ≠ w.lastTimestamp) :
    GetIds fuel clock (n + 1) pos w
      = some ((List.range' 0 (n + 1)).map (fun (k : Nat) => composeID T ⟨T, w.workerId, (k : Int)⟩),
          ⟨T, w.workerId, (n : Int)⟩, pos + (n + 1)) := by
  have h0 : unixMilli (clock pos) = T := by simpa using hT 0 (Nat.succ_pos n)
  have hadv : advance fuel clock pos w = some (T, ⟨T, w.workerId, ((0 : Nat) : Int)⟩, pos + 1) := by
    rw [advance_new (by rw [h0]; exact fun h => hne h.symm), h0]
    simp
  have hrest := GetIds_same fuel clock T w.workerId n 0 (pos + 1) (by omega) (fun i hi => by
      have := hT (i + 1) (by omega)
      rwa [show pos + (i + 1) = pos + 1 + i by omega] at this)
  unfold GetIds
  rw [GetId_of_advance hadv]
  simp only [hrest, List.range'_succ, List.map_cons]
  have e1 : 0 + n = n := by omega
  have e2 : pos + 1 + n = pos + (n + 1) := by omega
  rw [e1, e2]


/-- The run of `GetIds_fresh_bucket`, indexed by the number of calls. -/
theorem GetIds_fresh_run (fuel : Nat) (clock : Clock) (w : Worker) (T : Int) (m pos : Nat)
    (hm0 : 0 < m) (hm : m ≤ 4096) (hT : ∀ i, i < m → unixMilli (clock (pos + i)) = T)
    (hne : T ≠ w.lastTimestamp) :
    GetIds fuel clock m pos w
      = some ((List.range' 0 m).map (fun (k : Nat) => composeID T ⟨T, w.workerId, (k : Int)⟩),
          ⟨T, w.workerId, (m : Int) - 1⟩, pos + m) := by
  obtain ⟨n, rfl⟩ : ∃ n, m = n + 1 := ⟨m - 1, by omega⟩
  rw [GetIds_fresh_bucket fuel clock w T n pos (by omega) hT hne]
  simp

/-- C5: on a fresh worker with any node identifier in `[0, 1023]`, two consecutive
calls that both read the same millisecond `T ≠ 0` return identifiers with the same
timestamp field, node field `workerId`, sequence fields `0` then `1`, and the second
identifier is the first plus one. -/
theorem frozen_clock_two_calls (workerId : Int) (fuel : Nat) (clock : Clock) (pos : Nat)
    (hw0 : 0 ≤ workerId) (hw1 : workerId ≤ 1023)
    (hT : unixMilli (clock pos) ≠ 0)
    (hsame : unixMilli (clock (pos + 1)) = unixMilli (clock pos)) :
    ∃ w id1 id2 w2, NewWorker workerId = .ok w ∧
      GetIds fuel clock 2 pos w = some ([id1, id2], w2, pos + 2) ∧
      shr64 id1 22 = shr64 id2 22 ∧
      and64 (shr64 id1 12) 1023 = workerId ∧ and64 (shr64 id2 12) 1023 = workerId ∧
      and64 id1 4095 = 0 ∧ and64 id2 4095 = 1 ∧
      id2 = id1 + 1 := by
  have hnew : NewWorker workerId = .ok ⟨0, workerId, 0⟩ := by
    unfold NewWorker
    rw [workerMax_eq, if_neg (by omega)]
  have hrun : GetIds fuel clock 2 pos ⟨0, workerId, 0⟩
      = some ([composeID (unixMilli (clock pos)) ⟨unixMilli (clock pos), workerId, 0⟩,
          composeID (unixMilli (clock pos)) ⟨unixMilli (clock pos), workerId, 1⟩],
          ⟨unixMilli (clock pos), workerId, 1⟩, pos + 2) := by
    have h := GetIds_fresh_bucket fuel clock ⟨0, workerId, 0⟩ (unixMilli (clock pos)) 1 pos
      (by omega)
      (fun i hi => by
        have hi2 : i = 0 ∨ i = 1 := by omega
        rcases hi2 with rfl | rfl
        · rfl
        · exact hsame)
      hT
    simpa [List.range'] using h
  have r0 : Worker.InRange ⟨unixMilli (clock pos), workerId, 0⟩ :=
    ⟨hw0, hw1, le_refl _, by show (0 : Int) ≤ 4095; decide⟩
  have r1 : Worker.InRange ⟨unixMilli (clock pos), workerId, 1⟩ :=
    ⟨hw0, hw1, by show (0 : Int) ≤ 1; decide, by show (1 : Int) ≤ 4095; decide⟩
  obtain ⟨a1, a2, a3⟩ := composeID_fields (unixMilli (clock pos)) _ r0
  obtain ⟨b1, b2, b3⟩ := composeID_fields (unixMilli (clock pos)) _ r1
  refine ⟨_, _, _, _, hnew, hrun, ?_, a1, b1, a2, b2, ?_⟩
  · rw [a3, b3]
  · rw [composeID_eq _ _ r0.1 r0.2.1 r0.2.2.1 r0.2.2.2,
      composeID_eq _ _ r1.1 r1.2.1 r1.2.2.1 r1.2.2.2]
    simp


/-- Every instant of `slowClock` lies in millisecond `1681288475389`. -/
theorem slowClock_milli (i : Nat) : unixMilli (slowClock (0 + i)) = 1681288475389 := by
  unfold unixMilli slowClock
  rw [Int.tdiv_eq_ediv (by omega) (by omega)]
  omega

/-- Instance of the C5 scenario: node identifier `1`, both calls in millisecond
`1681288475389`. -/
theorem frozen_clock_two_calls_witness :
    (0 : Int) ≤ 1 ∧ unixMilli (slowClock 0) ≠ 0 ∧
    ∃ w id1 id2 w2, NewWorker 1 = .ok w ∧
      GetIds 0 slowClock 2 0 w = some ([id1, id2], w2, 0 + 2) ∧
      shr64 id1 22 = shr64 id2 22 ∧
      and64 (shr64 id1 12) 1023 = 1 ∧ and64 (shr64 id2 12) 1023 = 1 ∧
      and64 id1 4095 = 0 ∧ and64 id2 4095 = 1 ∧
      id2 = id1 + 1 :=
  ⟨by decide, by decide,
    frozen_clock_two_calls 1 0 slowClock 0 (by decide) (by decide) (by decide) (by decide)⟩

/-- The sequence field of an identifier composed with sequence number `k`. -/
theorem composeID_number (T wid : Int) (hw0 : 0 ≤ wid) (hw1 : wid ≤ 1023) (k : Nat)
    (hk : k < 4096) : and64 (composeID T ⟨T, wid, (k : Int)⟩) 4095 = (k : Int) :=
  (composeID_fields T ⟨T, wid, (k : Int)⟩
    ⟨hw0, hw1, by show (0 : Int) ≤ (k : Int); omega, by show (k : Int) ≤ 4095; omega⟩).2.1

/-- Sequence fields of identifiers composed with consecutive sequence numbers. -/
theorem map_composeID_number (T wid : Int) (hw0 : 0 ≤ wid) (hw1 : wid ≤ 1023) :
    ∀ (n s : Nat), s + n ≤ 4096 →
      ((List.range' s n).map (fun (k : Nat) => composeID T ⟨T, wid, (k : Int)⟩)).map
          (fun id => and64 id 4095)
        = (List.range' s n).map (fun (k : Nat) => (k : Int)) := by
  intro n
  induction n with
  | zero => intro s _; rfl
  | succ n ih =>
    intro s hs
    simp only [List.range'_succ, List.map_cons]
    rw [ih (s + 1) (by omega), composeID_number T wid hw0 hw1 s (by omega)]

/-- C6: on a reachable worker, 4096 consecutive calls that all read a millisecond `T`
different from the worker's `lastTimestamp` return identifiers whose sequence fields
are `0, 1, ..., 4095` in issuance order; every call reads the clock exactly once and
the run is the same for every bound on wait-loop iterations, zero included, so no call
runs the wait loop. -/
theorem rollover_first_half {w : Worker} (hr : Reachable w) (clock : Clock) (pos : Nat)
    (T : Int) (hT : ∀ i, i < 4096 → unixMilli (clock (pos + i)) = T)
    (hne : T ≠ w.lastTimestamp) :
    ∃ ids, (∀ fuel, GetIds fuel clock 4096 pos w
        = some (ids, ⟨T, w.workerId, 4095⟩, pos + 4096)) ∧
      ids.map (fun id => and64 id 4095) = (List.range 4096).map (fun (k : Nat) => (k : Int)) := by
  have e : ((4096 : Nat) : Int) - 1 = 4095 := by norm_num
  refine ⟨(List.range' 0 4096).map
    (fun (k : Nat) => composeID T ⟨T, w.workerId, (k : Int)⟩), fun fuel => ?_, ?_⟩
  · rw [GetIds_fresh_run fuel clock w T 4096 pos (by omega) (le_refl _) hT hne, e]
  · rw [List.range_eq_range']
    exact map_composeID_number T w.workerId hr.inRange.1 hr.inRange.2.1 4096 0 (by omega)

/-- Instance of the C6 rollover: the first 4096 calls on `NewWorker 1` under `slowClock`. -/
theorem rollover_first_half_witness :
    Reachable ⟨0, 1, 0⟩ ∧ (1681288475389 : Int) ≠ 0 ∧
    ∃ ids, (∀ fuel, GetIds fuel slowClock 4096 0 ⟨0, 1, 0⟩
        = some (ids, ⟨1681288475389, 1, 4095⟩, 0 + 4096)) ∧
      ids.map (fun id => and64 id 4095) = (List.range 4096).map (fun (k : Nat) => (k : Int)) :=
  ⟨Reachable.new (show NewWorker 1 = .ok ⟨0, 1, 0⟩ from rfl), by decide,
    rollover_first_half (Reachable.new (show NewWorker 1 = .ok ⟨0, 1, 0⟩ from rfl)) slowClock 0
      1681288475389 (fun i _ => slowClock_milli i) (by decide)⟩


/-! ## Node field -/

/-- The node field of every identifier a reachable worker returns is its `workerId`. -/
theorem GetId_node_field {w w1 : Worker} {fuel pos pos1 : Nat} {clock : Clock} {id : Int}
    (hr : Reachable w) (hg : GetId fuel clock pos w = some (id, w1, pos1)) :
    and64 (shr64 id 12) 1023 = w.workerId := by
  obtain ⟨now, ha, hc⟩ := GetId_eq_some hg
  obtain ⟨hid, hin, _⟩ := advance_spec hr.inRange ha
  rw [hc, (composeID_fields now w1 hin).1, hid]

/-- C8: for two reachable workers with different node identifiers and any clocks, every
identifier either returns carries its own `workerId` in the node field
`(id >> 12) & 1023`, hence an identifier of one never equals an identifier of the
other. -/
theorem cross_instance_unique {wA wB wA1 wB1 : Worker} {fuelA fuelB posA posB posA1 posB1 : Nat}
    {clockA clockB : Clock} {idA idB : Int}
    (hA : Reachable wA) (hB : Reachable wB) (hne : wA.workerId ≠ wB.workerId)
    (gA : GetId fuelA clockA posA wA = some (idA, wA1, posA1))
    (gB : GetId fuelB clockB posB wB = some (idB, wB1, posB1)) :
    and64 (shr64 idA 12) 1023 = wA.workerId ∧ and64 (shr64 idB 12) 1023 = wB.workerId ∧
      idA ≠ idB := by
  have fA := GetId_node_field hA gA
  have fB := GetId_node_field hB gB
  refine ⟨fA, fB, fun h => hne ?_⟩
  rw [← fA, ← fB, h]

/-- Instance of C8: workers with node identifiers `1` and `2`. -/
theorem cross_instance_unique_witness :
    Reachable ⟨0, 1, 0⟩ ∧ Reachable ⟨0, 2, 0⟩ ∧
    GetId 0 slowClock 0 ⟨0, 1, 0⟩ = some (4198400, ⟨1681288475389, 1, 0⟩, 1) ∧
    GetId 0 backwardClock 0 ⟨0, 2, 0⟩ = some (8396800, ⟨1681288475390, 2, 0⟩, 1) ∧
    and64 (shr64 4198400 12) 1023 = 1 ∧ and64 (shr64 8396800 12) 1023 = 2 ∧
      (4198400 : Int) ≠ 8396800 :=
  ⟨Reachable.new (show NewWorker 1 = .ok ⟨0, 1, 0⟩ from rfl),
    Reachable.new (show NewWorker 2 = .ok ⟨0, 2, 0⟩ from rfl), by decide, by decide,
    cross_instance_unique
      (Reachable.new (show NewWorker 1 = .ok ⟨0, 1, 0⟩ from rfl))
      (Reachable.new (show NewWorker 2 = .ok ⟨0, 2, 0⟩ from rfl))
      (show (1 : Int) ≠ 2 by decide)
      (show GetId 0 slowClock 0 ⟨0, 1, 0⟩ = some (4198400, ⟨1681288475389, 1, 0⟩, 1) by decide)
      (show GetId 0 backwardClock 0 ⟨0, 2, 0⟩ = some (8396800, ⟨1681288475390, 2, 0⟩, 1)
        by decide)⟩

/-! ## `lastTimestamp` across a call -/

/-- C9, failing run: the worker reached from `NewWorker 1` by one call reading
millisecond `1681288475390` holds `lastTimestamp = 1681288475390`; a second call whose
reading is the earlier millisecond `1681288475389` returns at once, with no wait-loop
iteration, and leaves `lastTimestamp = 1681288475389`, so `GetLastTimestamp` after the
call is smaller than before it. -/
theorem lastTimestamp_decreases_on_backward_reading :
    NewWorker 1 = .ok ⟨0, 1, 0⟩ ∧
    GetId 0 backwardClock 0 ⟨0, 1, 0⟩ = some (8392704, ⟨1681288475390, 1, 0⟩, 1) ∧
    Reachable ⟨1681288475390, 1, 0⟩ ∧
    GetId 0 backwardClock 1 ⟨1681288475390, 1, 0⟩ = some (4198400, ⟨1681288475389, 1, 0⟩, 2) ∧
    GetLastTimestamp ⟨1681288475389, 1, 0⟩ < GetLastTimestamp ⟨1681288475390, 1, 0⟩ :=
  ⟨rfl, by decide,
    Reachable.getId (Reachable.new (show NewWorker 1 = .ok ⟨0, 1, 0⟩ from rfl))
      (show GetId 0 backwardClock 0 ⟨0, 1, 0⟩ = some (8392704, ⟨1681288475390, 1, 0⟩, 1)
        by decide),
    by decide, by decide⟩

/-! ## Termination -/

/-- The wait loop returns at once when its time value is already later than `last`. -/
theorem waitLoop_exit (clock : Clock) (last : Int) (fuel pos : Nat) (now : Int)
    (h : last < now) : waitLoop clock last fuel pos now = some (now, pos) := by
  cases fuel <;> simp [waitLoop, not_le.mpr h]

/-- The wait loop returns at the first microsecond reading later than `last`, provided
the bound on iterations allows that many readings. -/
theorem waitLoop_first (clock : Clock) (last : Int) :
    ∀ (k fuel pos : Nat) (now : Int), now ≤ last →
      (∀ j, j < k → unixMicro (clock (pos + j)) ≤ last) →
      last < unixMicro (clock (pos + k)) → k + 1 ≤ fuel →
      waitLoop clock last fuel pos now = some (unixMicro (clock (pos + k)), pos + k + 1) := by
  intro k
  induction k with
  | zero =>
    intro fuel pos now hnow _ hgt hfuel
    obtain ⟨f, rfl⟩ : ∃ f, fuel = f + 1 := ⟨fuel - 1, by omega⟩
    rw [waitLoop, if_pos hnow]
    exact waitLoop_exit clock last f (pos + 1) _ hgt
  | succ k ih =>
    intro fuel pos now hnow hle hgt hfuel
    obtain ⟨f, rfl⟩ : ∃ f, fuel = f + 1 := ⟨fuel - 1, by omega⟩
    rw [waitLoop, if_pos hnow]
    have h0 : unixMicro (clock pos) ≤ last := by simpa using hle 0 (Nat.succ_pos k)
    have e : pos + 1 + k = pos + (k + 1) := by omega
    have hstep := ih f (pos + 1) (unixMicro (clock pos)) h0
      (fun j hj => by
        have := hle (j + 1) (by omega)
        rwa [show pos + (j + 1) = pos + 1 + j by omega] at this)
      (by rw [e]; exact hgt) (by omega)
    rw [hstep, e]

/-- C10: `GetId` on a reachable worker has no failure value, and the identifier it
returns lies in the `int64` range.  When the millisecond reading differs from `lastTimestamp`,
or equals it with `number < 4095`, the call returns after that single reading, whatever
the bound on wait-loop iterations.  In the exhaustion branch, under the precondition
that some wait-loop reading exceeds `lastTimestamp`, it returns after `n ≥ 1` wait-loop
readings, the `n`-th being the first that exceeds `lastTimestamp`. -/
theorem getId_never_fails {w : Worker} (hr : Reachable w) (clock : Clock) (pos : Nat)
    (hwait : unixMilli (clock pos) = w.lastTimestamp → w.number = 4095 →
      ∃ k, w.lastTimestamp < unixMicro (clock (pos + 1 + k))) :
    ∃ n, (∀ fuel, n ≤ fuel → ∃ id w1, GetId fuel clock pos w = some (id, w1, pos + 1 + n) ∧
          -9223372036854775808 ≤ id ∧ id < 9223372036854775808) ∧
      ((unixMilli (clock pos) ≠ w.lastTimestamp ∨ w.number < 4095) → n = 0) ∧
      ((unixMilli (clock pos) = w.lastTimestamp ∧ w.number = 4095) →
        0 < n ∧ w.lastTimestamp < unixMicro (clock (pos + n)) ∧
        ∀ j, j + 1 < n → unixMicro (clock (pos + 1 + j)) ≤ w.lastTimestamp) := by
  obtain ⟨_, _, hn0, hn1⟩ := hr.inRange
  have hrange : ∀ now w1, -9223372036854775808 ≤ composeID now w1 ∧
      composeID now w1 < 9223372036854775808 := by
    intro now w1
    unfold composeID
    generalize or64 (shl64 (sub64 now startTime) (timeShift - 0))
      (shl64 w1.workerId workerShift) = a
    unfold or64
    exact wrap64_range _
  by_cases hT : w.lastTimestamp = unixMilli (clock pos)
  · by_cases hN : w.number < 4095
    · refine ⟨0, fun fuel _ => ⟨_, _, GetId_of_advance (advance_same hT hn0 hN),
        hrange _ _⟩, fun _ => rfl, fun h => ?_⟩
      omega
    · have hfull : w.number = 4095 := by omega
      have hex := hwait hT.symm hfull
      classical
      have hk := Nat.find_spec hex
      have hmin : ∀ j, j < Nat.find hex →
          unixMicro (clock (pos + 1 + j)) ≤ w.lastTimestamp :=
        fun j hj => not_lt.mp (Nat.find_min hex hj)
      refine ⟨Nat.find hex + 1, fun fuel hfuel => ?_, fun h => ?_, fun _ => ⟨by omega, ?_, ?_⟩⟩
      · have hloop := waitLoop_first clock w.lastTimestamp (Nat.find hex) fuel (pos + 1)
          (unixMilli (clock pos)) (by omega) hmin hk hfuel
        have hadv := @advance_full fuel clock pos w hT hfull
        rw [hloop] at hadv
        have e : pos + 1 + Nat.find hex + 1 = pos + 1 + (Nat.find hex + 1) := by omega
        rw [e] at hadv
        exact ⟨_, _, GetId_of_advance hadv, hrange _ _⟩
      · rcases h with h | h
        · exact absurd hT.symm h
        · omega
      · rw [show pos + (Nat.find hex + 1) = pos + 1 + Nat.find hex by omega]
        exact hk
      · intro j hj
        exact hmin j (by omega)
  · refine ⟨0, fun fuel _ => ⟨_, _, GetId_of_advance (advance_new hT), hrange _ _⟩,
      fun _ => rfl, fun h => ?_⟩
    exact absurd h.1.symm hT


/-! ## Longer runs -/

/-- A run of `m` calls followed by a run of `n` calls is a run of `m + n` calls. -/
theorem GetIds_append (fuel : Nat) (clock : Clock) :
    ∀ (m n t pos : Nat) (w : Worker) {ids1 ids2 : List Int} {w1 w2 : Worker} {pos1 pos2 : Nat},
      t = m + n → GetIds fuel clock m pos w = some (ids1, w1, pos1) →
      GetIds fuel clock n pos1 w1 = some (ids2, w2, pos2) →
      GetIds fuel clock t pos w = some (ids1 ++ ids2, w2, pos2) := by
  intro m
  induction m with
  | zero =>
    intro n t pos w ids1 ids2 w1 w2 pos1 pos2 ht h1 h2
    have ht2 : t = n := by omega
    subst ht2
    simp only [GetIds, Option.some.injEq, Prod.mk.injEq] at h1
    obtain ⟨e1, e2, e3⟩ := h1
    subst e1 e2 e3
    simpa using h2
  | succ m ih =>
    intro n t pos w ids1 ids2 w1 w2 pos1 pos2 ht h1 h2
    have ht2 : t = (m + n) + 1 := by omega
    subst ht2
    rw [GetIds] at h1 ⊢
    cases hg : GetId fuel clock pos w with
    | none => simp [hg] at h1
    | some r =>
      obtain ⟨id, wa, posa⟩ := r
      rw [hg] at h1
      simp only [] at h1 ⊢
      cases hrest : GetIds fuel clock m posa wa with
      | none => simp [hrest] at h1
      | some r2 =>
        obtain ⟨idsa, wb, posb⟩ := r2
        rw [hrest] at h1
        simp only [Option.some.injEq, Prod.mk.injEq] at h1
        obtain ⟨e1, e2, e3⟩ := h1
        subst e1 e2 e3
        rw [ih n (m + n) posa wa rfl hrest h2]
        rfl

/-- A run of calls leads from reachable workers to reachable workers. -/
theorem Reachable.getIds {fuel : Nat} {clock : Clock} :
    ∀ (n pos : Nat) {w w1 : Worker} {ids : List Int} {pos1 : Nat}, Reachable w →
      GetIds fuel clock n pos w = some (ids, w1, pos1) → Reachable w1 := by
  intro n
  induction n with
  | zero =>
    intro pos w w1 ids pos1 hr h
    simp only [GetIds, Option.some.injEq, Prod.mk.injEq] at h
    obtain ⟨_, e2, _⟩ := h
    subst e2
    exact hr
  | succ n ih =>
    intro pos w w1 ids pos1 hr h
    rw [GetIds] at h
    cases hg : GetId fuel clock pos w with
    | none => simp [hg] at h
    | some r =>
      obtain ⟨id, wa, posa⟩ := r
      rw [hg] at h
      simp only [] at h
      cases hrest : GetIds fuel clock n posa wa with
      | none => simp [hrest] at h
      | some r2 =>
        obtain ⟨idsa, wb, posb⟩ := r2
        rw [hrest] at h
        simp only [Option.some.injEq, Prod.mk.injEq] at h
        obtain ⟨_, e2, _⟩ := h
        subst e2
        exact ih posa (Reachable.getId hr hg) hrest

/-- The first 4096 calls on `NewWorker 1` under `slowClock`: sequence numbers
`0, ..., 4095` in millisecond `1681288475389`. -/
theorem slowClock_first_4096 (fuel : Nat) :
    GetIds fuel slowClock 4096 0 ⟨0, 1, 0⟩
      = some ((List.range' 0 4096).map
          (fun (k : Nat) => composeID 1681288475389 ⟨1681288475389, 1, (k : Int)⟩),
          ⟨1681288475389, 1, 4095⟩, 4096) := by
  have e : ((4096 : Nat) : Int) - 1 = 4095 := by norm_num
  rw [GetIds_fresh_run fuel slowClock ⟨0, 1, 0⟩ 1681288475389 4096 0 (by omega) (le_refl _)
    (fun i _ => slowClock_milli i) (by decide), e]

/-- The worker that has issued 4096 identifiers in millisecond `1681288475389` is
reachable. -/
theorem reachable_full : Reachable ⟨1681288475389, 1, 4095⟩ :=
  Reachable.getIds 4096 0 (Reachable.new (show NewWorker 1 = .ok ⟨0, 1, 0⟩ from rfl))
    (slowClock_first_4096 0)

/-- The 4097th and 4098th call under `slowClock`. -/
theorem slowClock_calls_4097_4098 :
    GetIds 1 slowClock 2 4096 ⟨1681288475389, 1, 4095⟩
      = some ([-1873093656521469952, 4198400], ⟨1681288475389, 1, 0⟩, 4099) := by
  decide


/-- The instants of `slowClock` never decrease. -/
theorem slowClock_forward : Clock.Forward slowClock := by
  intro i j hij
  unfold slowClock
  omega

/-- Every instant of `slowClock` lies in the usable range of the timestamp field. -/
theorem slowClock_usable : Clock.Usable slowClock := by
  intro i
  have h := slowClock_milli i
  rw [Nat.zero_add] at h
  rw [h]
  decide

/-- The 4097th call under `slowClock`, taken alone. -/
theorem slowClock_call_4097 :
    GetId 1 slowClock 4096 ⟨1681288475389, 1, 4095⟩
      = some (-1873093656521469952, ⟨1681288475389004, 1, 0⟩, 4098) := by
  decide

/-! ## The exhaustion branch reads microseconds -/

/-- C1, failing run: `slowClock` never moves backward and stays in the usable range, yet
4098 consecutive calls on `NewWorker 1` under it return the identifier `4198400` twice,
as the first and as the last of the 4098. -/
theorem duplicate_after_exhaustion :
    Clock.Forward slowClock ∧ Clock.Usable slowClock ∧ NewWorker 1 = .ok ⟨0, 1, 0⟩ ∧
    ∃ mid x, mid.length = 4095 ∧
      GetIds 1 slowClock 4098 0 ⟨0, 1, 0⟩
        = some (4198400 :: (mid ++ [x, 4198400]), ⟨1681288475389, 1, 0⟩, 4099) := by
  refine ⟨slowClock_forward, slowClock_usable, rfl,
    (List.range' 1 4095).map
      (fun (k : Nat) => composeID 1681288475389 ⟨1681288475389, 1, (k : Int)⟩),
    -1873093656521469952, by simp, ?_⟩
  have h := GetIds_append 1 slowClock 4096 2 4098 0 ⟨0, 1, 0⟩ (by norm_num)
    (slowClock_first_4096 1) slowClock_calls_4097_4098
  have e : List.range' 0 4096 = 0 :: List.range' 1 4095 := by
    rw [show (4096 : Nat) = 4095 + 1 from rfl, List.range'_succ]
  have e0 : composeID 1681288475389 ⟨1681288475389, 1, ((0 : Nat) : Int)⟩ = 4198400 := by
    decide
  rw [e, List.map_cons, e0, List.cons_append] at h
  exact h

/-- C2, failing run: under `slowClock`, which never moves backward and stays in the
usable range, the 4096th call on `NewWorker 1` returns `4202495` and the 4097th call
returns `-1873093656521469952`, which is smaller. -/
theorem not_increasing_after_exhaustion :
    Clock.Forward slowClock ∧ Clock.Usable slowClock ∧ NewWorker 1 = .ok ⟨0, 1, 0⟩ ∧
    (∃ pre, pre.length = 4095 ∧
      GetIds 1 slowClock 4097 0 ⟨0, 1, 0⟩
        = some (pre ++ [4202495, -1873093656521469952], ⟨1681288475389004, 1, 0⟩, 4098)) ∧
    (-1873093656521469952 : Int) < 4202495 := by
  refine ⟨slowClock_forward, slowClock_usable, rfl,
    ⟨(List.range' 0 4095).map
      (fun (k : Nat) => composeID 1681288475389 ⟨1681288475389, 1, (k : Int)⟩),
      by simp, ?_⟩, by decide⟩
  have h1 : GetIds 1 slowClock 1 4096 ⟨1681288475389, 1, 4095⟩
      = some ([-1873093656521469952], ⟨1681288475389004, 1, 0⟩, 4098) := by
    simp [GetIds, slowClock_call_4097]
  have h := GetIds_append 1 slowClock 4096 1 4097 0 ⟨0, 1, 0⟩ (by norm_num)
    (slowClock_first_4096 1) h1
  have e : List.range' 0 4096 = List.range' 0 4095 ++ [4095] := by
    rw [show (4096 : Nat) = 4095 + 1 from rfl, List.range'_concat]
  have e0 : composeID 1681288475389 ⟨1681288475389, 1, ((4095 : Nat) : Int)⟩ = 4202495 := by
    decide
  rw [e, List.map_append, List.map_cons, List.map_nil, e0, List.append_assoc,
    List.singleton_append] at h
  exact h

/-- C7, failing call: the reachable worker with `lastTimestamp = 1681288475389` and
`number = 4095` is called while the clock still reads millisecond `1681288475389`.  The
call returns after one wait-loop reading, taken at an instant whose millisecond value
is still `1681288475389`; it stores the microsecond count `1681288475389004` as
`lastTimestamp`, and the timestamp field of the identifier it returns is
`-446580328112`. -/
theorem exhausted_call_does_not_wait :
    Reachable ⟨1681288475389, 1, 4095⟩ ∧
    unixMilli (slowClock 4096) = 1681288475389 ∧
    GetId 1 slowClock 4096 ⟨1681288475389, 1, 4095⟩
      = some (-1873093656521469952, ⟨1681288475389004, 1, 0⟩, 4098) ∧
    unixMilli (slowClock 4097) = 1681288475389 ∧
    unixMicro (slowClock 4097) = 1681288475389004 ∧
    shr64 (-1873093656521469952) 22 = -446580328112 :=
  ⟨reachable_full, by decide, slowClock_call_4097, by decide, by decide, by decide⟩

/-- Under the forward-only `slowClock` too `lastTimestamp` goes down: the exhausted call
stores the microsecond count `1681288475389004`, and the next call, reading millisecond
`1681288475389`, stores that smaller value. -/
theorem lastTimestamp_decreases_after_exhaustion :
    Clock.Forward slowClock ∧
    Reachable ⟨1681288475389004, 1, 0⟩ ∧
    GetId 0 slowClock 4098 ⟨1681288475389004, 1, 0⟩
      = some (4198400, ⟨1681288475389, 1, 0⟩, 4099) ∧
    GetLastTimestamp ⟨1681288475389, 1, 0⟩ < GetLastTimestamp ⟨1681288475389004, 1, 0⟩ :=
  ⟨slowClock_forward, Reachable.getId reachable_full slowClock_call_4097,
    by decide, by decide⟩

/-- Instance of C10 in the exhaustion branch: the 4097th call under `slowClock`. -/
theorem getId_never_fails_witness :
    Reachable ⟨1681288475389, 1, 4095⟩ ∧
    (∃ k, (1681288475389 : Int) < unixMicro (slowClock (4096 + 1 + k))) ∧
    ∃ n, (∀ fuel, n ≤ fuel → ∃ id w1,
          GetId fuel slowClock 4096 ⟨1681288475389, 1, 4095⟩ = some (id, w1, 4096 + 1 + n) ∧
          -9223372036854775808 ≤ id ∧ id < 9223372036854775808) ∧
      ((unixMilli (slowClock 4096) ≠ 1681288475389 ∨ (4095 : Int) < 4095) → n = 0) ∧
      ((unixMilli (slowClock 4096) = 1681288475389 ∧ (4095 : Int) = 4095) →
        0 < n ∧ (1681288475389 : Int) < unixMicro (slowClock (4096 + n)) ∧
        ∀ j, j + 1 < n → unixMicro (slowClock (4096 + 1 + j)) ≤ 1681288475389) :=
  ⟨reachable_full, ⟨0, by decide⟩,
    getId_never_fails reachable_full slowClock 4096 (fun _ _ => ⟨0, by decide⟩)⟩


/-! ## Constants and construction, continued -/

/-- C19: the constant expressions of lines 13-21 evaluate to the documented values:
`workerBits = 10`, `numberBits = 12`, `workerMax = -1 ^ (-1 << 10) = 1023`,
`numberMax = -1 ^ (-1 << 12) = 4095`, `timeShift = workerBits + numberBits = 22` and
`workerShift = 12`. -/
theorem constants_values :
    workerBits = 10 ∧ numberBits = 12 ∧
    workerMax = xor64 (-1) (shl64 (-1) 10) ∧ workerMax = 1023 ∧
    numberMax = xor64 (-1) (shl64 (-1) 12) ∧ numberMax = 4095 ∧
    timeShift = workerBits + numberBits ∧ timeShift = 22 ∧ workerShift = 12 := by
  refine ⟨rfl, rfl, rfl, ?_, rfl, ?_, ?_, ?_, ?_⟩ <;> decide

/-- C13: for every `workerId` in `[0, 1023]`, `NewWorker workerId` succeeds and the worker
it returns has `lastTimestamp = 0`, `number = 0` and the given `workerId`. -/
theorem NewWorker_fresh (workerId : Int) (h0 : 0 ≤ workerId) (h1 : workerId ≤ 1023) :
    ∃ w, NewWorker workerId = .ok w ∧ w.lastTimestamp = 0 ∧ w.number = 0 ∧
      w.workerId = workerId := by
  refine ⟨⟨0, workerId, 0⟩, ?_, rfl, rfl, rfl⟩
  unfold NewWorker
  rw [workerMax_eq, if_neg (by omega)]

/-- Instance of C13: node identifier `1023`. -/
theorem NewWorker_fresh_witness :
    (0 : Int) ≤ 1023 ∧ (1023 : Int) ≤ 1023 ∧
    ∃ w, NewWorker 1023 = .ok w ∧ w.lastTimestamp = 0 ∧ w.number = 0 ∧ w.workerId = 1023 :=
  ⟨by decide, by decide, NewWorker_fresh 1023 (by decide) (by decide)⟩

/-! ## Backward clock -/

/-- C11: a worker and a clock with a backward jump exist for which two calls return the
same identifier.  On `NewWorker 1` under `returningClock` the readings are milliseconds
`1681288475389`, `1681288475390`, `1681288475389`; the first and the third call both
return `4198400`, and the run needs no wait-loop iteration. -/
theorem backward_jump_duplicate :
    NewWorker 1 = .ok ⟨0, 1, 0⟩ ∧
    unixMilli (returningClock 0) = 1681288475389 ∧
    unixMilli (returningClock 1) = 1681288475390 ∧
    unixMilli (returningClock 2) = 1681288475389 ∧
    GetIds 0 returningClock 3 0 ⟨0, 1, 0⟩
      = some ([4198400, 8392704, 4198400], ⟨1681288475389, 1, 0⟩, 3) := by
  refine ⟨rfl, ?_, ?_, ?_, ?_⟩ <;> decide


/-! ## Frame: the node identifier -/

/-- One call leaves `workerId` as it was, for any worker state. -/
theorem advance_workerId {fuel : Nat} {clock : Clock} {pos : Nat} {w w1 : Worker} {now : Int}
    {pos1 : Nat} (h : advance fuel clock pos w = some (now, w1, pos1)) :
    w1.workerId = w.workerId := by
  unfold advance at h
  simp only [] at h
  split at h
  · split at h
    · split at h
      · cases h
      · cases h; rfl
    · cases h; rfl
  · cases h; rfl

/-- A run of calls leaves `workerId` as it was. -/
theorem GetIds_workerId {fuel : Nat} {clock : Clock} :
    ∀ (n pos : Nat) {w w1 : Worker} {ids : List Int} {pos1 : Nat},
      GetIds fuel clock n pos w = some (ids, w1, pos1) → w1.workerId = w.workerId := by
  intro n
  induction n with
  | zero =>
    intro pos w w1 ids pos1 h
    simp only [GetIds, Option.some.injEq, Prod.mk.injEq] at h
    obtain ⟨_, e2, _⟩ := h
    subst e2
    rfl
  | succ n ih =>
    intro pos w w1 ids pos1 h
    rw [GetIds] at h
    cases hg : GetId fuel clock pos w with
    | none => simp [hg] at h
    | some r =>
      obtain ⟨id, wa, posa⟩ := r
      rw [hg] at h
      simp only [] at h
      cases hrest : GetIds fuel clock n posa wa with
      | none => simp [hrest] at h
      | some r2 =>
        obtain ⟨idsa, wb, posb⟩ := r2
        rw [hrest] at h
        simp only [Option.some.injEq, Prod.mk.injEq] at h
        obtain ⟨_, e2, _⟩ := h
        subst e2
        obtain ⟨now, ha, _⟩ := GetId_eq_some hg
        rw [ih posa hrest, advance_workerId ha]

/-- C12: on the worker built by `NewWorker workerId`, and on the worker after any number
of `GetId` calls under any clock, `GetWorkerId` returns `workerId` and
`GetLastTimestamp` returns the current `lastTimestamp`; both accessors hand the worker
back with every field unchanged. -/
theorem accessors_frame {workerId : Int} {w w1 : Worker} {fuel n pos pos1 : Nat}
    {clock : Clock} {ids : List Int}
    (hnew : NewWorker workerId = .ok w)
    (hrun : GetIds fuel clock n pos w = some (ids, w1, pos1)) :
    GetWorkerId w = workerId ∧ GetWorkerId w1 = workerId ∧
    GetLastTimestamp w1 = w1.lastTimestamp ∧
    GetWorkerId.step w1 = (workerId, w1) ∧
    GetLastTimestamp.step w1 = (w1.lastTimestamp, w1) := by
  have h0 : w.workerId = workerId := by
    rw [(NewWorker_inRange hnew).2]
  have h1 : w1.workerId = workerId := by
    rw [GetIds_workerId n pos hrun, h0]
  refine ⟨h0, h1, rfl, ?_, rfl⟩
  unfold GetWorkerId.step
  rw [h1]

/-- Instance of C12: `NewWorker 1` after three calls under `returningClock`. -/
theorem accessors_frame_witness :
    NewWorker 1 = .ok ⟨0, 1, 0⟩ ∧
    GetIds 0 returningClock 3 0 ⟨0, 1, 0⟩
      = some ([4198400, 8392704, 4198400], ⟨1681288475389, 1, 0⟩, 3) ∧
    GetWorkerId ⟨0, 1, 0⟩ = 1 ∧ GetWorkerId ⟨1681288475389, 1, 0⟩ = 1 ∧
    GetLastTimestamp ⟨1681288475389, 1, 0⟩ = 1681288475389 ∧
    GetWorkerId.step ⟨1681288475389, 1, 0⟩ = (1, ⟨1681288475389, 1, 0⟩) ∧
    GetLastTimestamp.step ⟨1681288475389, 1, 0⟩ = (1681288475389, ⟨1681288475389, 1, 0⟩) :=
  ⟨rfl, by decide,
    accessors_frame (show NewWorker 1 = .ok ⟨0, 1, 0⟩ from rfl)
      (show GetIds 0 returningClock 3 0 ⟨0, 1, 0⟩
        = some ([4198400, 8392704, 4198400], ⟨1681288475389, 1, 0⟩, 3) by decide)⟩


/-! ## The composition formula on every path -/

/-- Where the time value returned by the wait loop comes from: either the loop did not
iterate, or it is the last microsecond reading taken. -/
theorem waitLoop_reads {clock : Clock} {last : Int} :
    ∀ (fuel pos : Nat) (now : Int) {now1 : Int} {pos1 : Nat},
      waitLoop clock last fuel pos now = some (now1, pos1) →
      (pos1 = pos ∧ now1 = now ∧ last < now) ∨
        (pos < pos1 ∧ now1 = unixMicro (clock (pos1 - 1))) := by
  intro fuel
  induction fuel with
  | zero =>
    intro pos now now1 pos1 h
    unfold waitLoop at h
    split at h
    · cases h
    · cases h
      exact Or.inl ⟨rfl, rfl, by omega⟩
  | succ n ih =>
    intro pos now now1 pos1 h
    unfold waitLoop at h
    split at h
    · rcases ih (pos + 1) _ h with ⟨e1, e2, _⟩ | ⟨e1, e2⟩
      · refine Or.inr ⟨by omega, ?_⟩
        rw [e2, e1, Nat.add_sub_cancel]
      · exact Or.inr ⟨by omega, e2⟩
    · cases h
      exact Or.inl ⟨rfl, rfl, by omega⟩

/-- What one call does, for any worker state: the node identifier is kept, the time
value composed is the `lastTimestamp` held afterwards, and it is the last clock value
read. -/
theorem advance_any {fuel : Nat} {clock : Clock} {pos : Nat} {w w1 : Worker} {now : Int}
    {pos1 : Nat} (h : advance fuel clock pos w = some (now, w1, pos1)) :
    w1.workerId = w.workerId ∧ w1.lastTimestamp = now ∧ pos < pos1 ∧
      now = (if pos1 = pos + 1 then unixMilli (clock pos) else unixMicro (clock (pos1 - 1))) := by
  unfold advance at h
  simp only [] at h
  split at h
  · rename_i heq
    have hT : w.lastTimestamp = unixMilli (clock pos) := by simpa using heq
    split at h
    · split at h
      · cases h
      · rename_i now1 pos2 hloop
        cases h
        have hr := waitLoop_reads fuel (pos + 1) (unixMilli (clock pos)) hloop
        have hgt := waitLoop_gt hloop
        simp only [] at hgt hr
        rcases hr with ⟨_, e2, e3⟩ | ⟨e1, e2⟩
        · omega
        · refine ⟨rfl, rfl, by omega, ?_⟩
          rw [if_neg (by omega)]
          exact e2
    · cases h
      refine ⟨rfl, hT, by omega, ?_⟩
      rw [if_pos rfl]
  · cases h
    refine ⟨rfl, rfl, by omega, ?_⟩
    rw [if_pos rfl]

/-- C15: for every worker state and every clock, the value `GetId` returns is
`((now - startTime) << 22) | (workerId << 12) | number` in wrapping signed 64-bit
arithmetic, with `startTime = 1681288475388`, `now` the last clock value the call read
(the millisecond reading if it read once, else the last microsecond reading of the wait
loop) and `number` the worker's sequence number after the call. -/
theorem getId_composition {w w1 : Worker} {fuel pos pos1 : Nat} {clock : Clock} {id : Int}
    (hg : GetId fuel clock pos w = some (id, w1, pos1)) :
    ∃ now, id = or64 (or64 (shl64 (sub64 now 1681288475388) 22) (shl64 w.workerId 12))
        w1.number ∧
      pos < pos1 ∧
      now = (if pos1 = pos + 1 then unixMilli (clock pos)
        else unixMicro (clock (pos1 - 1))) := by
  obtain ⟨now, ha, hc⟩ := GetId_eq_some hg
  obtain ⟨hid, _, hpos, hnow⟩ := advance_any ha
  refine ⟨now, ?_, hpos, hnow⟩
  rw [hc]
  unfold composeID
  rw [timeShift_eq, workerShift_eq, hid]
  rfl

/-- Instance of C15: the exhausted call under `slowClock`, whose last reading is the
microsecond count `1681288475389004`. -/
theorem getId_composition_witness :
    GetId 1 slowClock 4096 ⟨1681288475389, 1, 4095⟩
      = some (-1873093656521469952, ⟨1681288475389004, 1, 0⟩, 4098) ∧
    ∃ now, (-1873093656521469952 : Int)
        = or64 (or64 (shl64 (sub64 now 1681288475388) 22)
            (shl64 (Worker.workerId ⟨1681288475389, 1, 4095⟩) 12))
          (Worker.number ⟨1681288475389004, 1, 0⟩) ∧
      4096 < 4098 ∧
      now = (if 4098 = 4096 + 1 then unixMilli (slowClock 4096)
        else unixMicro (slowClock (4098 - 1))) :=
  ⟨slowClock_call_4097, getId_composition slowClock_call_4097⟩

/-- C20: after every `GetId` call that returns, on every path and for all clock readings,
the identifier is composed from the worker's state after the call:
`id = ((GetLastTimestamp() - startTime) << 22) | (GetWorkerId() << 12) | number`. -/
theorem getId_consistent_with_state {w w1 : Worker} {fuel pos pos1 : Nat} {clock : Clock}
    {id : Int} (hg : GetId fuel clock pos w = some (id, w1, pos1)) :
    id = or64 (or64 (shl64 (sub64 (GetLastTimestamp w1) startTime) 22)
        (shl64 (GetWorkerId w1) 12)) w1.number := by
  obtain ⟨now, ha, hc⟩ := GetId_eq_some hg
  obtain ⟨_, hlast, _, _⟩ := advance_any ha
  rw [hc]
  unfold composeID GetLastTimestamp GetWorkerId
  rw [timeShift_eq, workerShift_eq, hlast]

/-- Instance of C20: the exhausted call under `slowClock`. -/
theorem getId_consistent_with_state_witness :
    GetId 1 slowClock 4096 ⟨1681288475389, 1, 4095⟩
      = some (-1873093656521469952, ⟨1681288475389004, 1, 0⟩, 4098) ∧
    (-1873093656521469952 : Int)
      = or64 (or64 (shl64 (sub64 (GetLastTimestamp ⟨1681288475389004, 1, 0⟩) startTime) 22)
          (shl64 (GetWorkerId ⟨1681288475389004, 1, 0⟩) 12)) 0 :=
  ⟨slowClock_call_4097, getId_consistent_with_state slowClock_call_4097⟩


/-! ## New bucket -/

/-- Or-ing zero into the result of an or leaves it as it is. -/
theorem or64_or64_zero (a b : Int) : or64 (or64 a b) 0 = or64 a b := by
  have h0 : bits64 0 = 0 := by decide
  have hb : ∀ y : Int, bits64 (wrap64 y) = (y % 18446744073709551616).toNat := by
    intro y
    unfold bits64 wrap64
    split <;> omega
  have hlt : bits64 a ||| bits64 b < 2 ^ 64 :=
    Nat.or_lt_two_pow (by unfold bits64; omega) (by unfold bits64; omega)
  generalize hc : bits64 a ||| bits64 b = c at hlt
  have e : or64 a b = wrap64 (c : Int) := by unfold or64; rw [hc]
  rw [e]
  unfold or64
  have hm : ((c : Int) % 18446744073709551616).toNat = c := by omega
  rw [h0, Nat.or_zero, hb, hm]

/-- C16: for every worker state and every millisecond reading `now` different from
`lastTimestamp`, later or earlier, `GetId` reads the clock once (no wait-loop iteration
is needed), sets the sequence number to `0` and `lastTimestamp` to `now`, and returns
`((now - startTime) << 22) | (workerId << 12)`; an earlier reading is neither rejected
nor waited out. -/
theorem new_bucket_transition (fuel : Nat) (clock : Clock) (pos : Nat) (w : Worker)
    (hne : unixMilli (clock pos) ≠ w.lastTimestamp) :
    GetId fuel clock pos w
      = some (or64 (shl64 (sub64 (unixMilli (clock pos)) startTime) 22) (shl64 w.workerId 12),
          ⟨unixMilli (clock pos), w.workerId, 0⟩, pos + 1) := by
  have ha := @advance_new fuel clock pos w (fun h => hne h.symm)
  rw [GetId_of_advance ha]
  unfold composeID
  rw [timeShift_eq, workerShift_eq]
  simp only []
  rw [or64_or64_zero]

/-- Instance of C16 with an earlier reading: `lastTimestamp = 1681288475390`, reading
`1681288475389`, no wait-loop iteration allowed. -/
theorem new_bucket_transition_witness :
    unixMilli (backwardClock 1) ≠ 1681288475390 ∧
    unixMilli (backwardClock 1) < 1681288475390 ∧
    GetId 0 backwardClock 1 ⟨1681288475390, 1, 0⟩
      = some (or64 (shl64 (sub64 (unixMilli (backwardClock 1)) startTime) 22) (shl64 1 12),
          ⟨unixMilli (backwardClock 1), 1, 0⟩, 1 + 1) :=
  ⟨by decide, by decide,
    new_bucket_transition 0 backwardClock 1 ⟨1681288475390, 1, 0⟩ (by decide)⟩

/-! ## Sequence range -/

/-- C17: in every worker state reachable from `NewWorker` by `GetId` calls under any
clocks the sequence number lies in `[0, 4095]`, before and after a further call, and
the identifier that call returns has `id & 4095` equal to the sequence number after the
call. -/
theorem sequence_range {w w1 : Worker} {fuel pos pos1 : Nat} {clock : Clock} {id : Int}
    (hr : Reachable w) (hg : GetId fuel clock pos w = some (id, w1, pos1)) :
    0 ≤ w.number ∧ w.number ≤ 4095 ∧ 0 ≤ w1.number ∧ w1.number ≤ 4095 ∧
      and64 id 4095 = w1.number := by
  obtain ⟨now, ha, hc⟩ := GetId_eq_some hg
  obtain ⟨_, hin, _⟩ := advance_spec hr.inRange ha
  refine ⟨hr.inRange.2.2.1, hr.inRange.2.2.2, hin.2.2.1, hin.2.2.2, ?_⟩
  rw [hc]
  exact (composeID_fields now w1 hin).2.1

/-- Instance of C17: the exhausted call under `slowClock`, from sequence number `4095`
to `0`. -/
theorem sequence_range_witness :
    Reachable ⟨1681288475389, 1, 4095⟩ ∧
    GetId 1 slowClock 4096 ⟨1681288475389, 1, 4095⟩
      = some (-1873093656521469952, ⟨1681288475389004, 1, 0⟩, 4098) ∧
    (0 : Int) ≤ 4095 ∧ (4095 : Int) ≤ 4095 ∧ (0 : Int) ≤ 0 ∧ (0 : Int) ≤ 4095 ∧
      and64 (-1873093656521469952) 4095 = 0 :=
  ⟨reachable_full, slowClock_call_4097, sequence_range reachable_full slowClock_call_4097⟩


/-! ## Usable range -/

/-- C18: when a reachable worker's call composes its identifier from a time value `now`
with `0 ≤ now - startTime < 2 ^ 41`, the shift by 22 does not overflow and the identifier
satisfies `0 ≤ id < 2 ^ 63`, so the sign bit is clear; when `now - startTime = 2 ^ 41`
the shift overflows to `-2 ^ 63` and the identifier is negative.  The range of `2 ^ 41`
milliseconds is between 69 and 70 years of 365.25 days; `startTime` lies between the
Unix millisecond counts of 2023-01-01 and 2024-01-01 (UTC) and `startTime + 2 ^ 41`
between those of 2092-01-01 and 2093-01-01. -/
theorem usable_range_sign_bit {w w1 : Worker} {fuel pos pos1 : Nat} {clock : Clock} {now : Int}
    (hr : Reachable w) (ha : advance fuel clock pos w = some (now, w1, pos1)) :
    ∃ id, GetId fuel clock pos w = some (id, w1, pos1) ∧
      ((0 ≤ now - startTime ∧ now - startTime < 2 ^ 41) →
        0 ≤ id ∧ id < 2 ^ 63 ∧
        shl64 (sub64 now startTime) 22 = (now - startTime) * 2 ^ 22) ∧
      (now - startTime = 2 ^ 41 →
        id < 0 ∧ shl64 (sub64 now startTime) 22 = -2 ^ 63 ∧
        shl64 (sub64 now startTime) 22 ≠ (now - startTime) * 2 ^ 22) ∧
      (69 * 31557600000 < (2 : Int) ^ 41 ∧ (2 : Int) ^ 41 < 70 * 31557600000 ∧
        1672531200000 ≤ startTime ∧ startTime < 1704067200000 ∧
        3849984000000 ≤ startTime + 2 ^ 41 ∧ startTime + 2 ^ 41 < 3881606400000) := by
  obtain ⟨_, hin, _⟩ := advance_spec hr.inRange ha
  obtain ⟨hw0, hw1, hn0, hn1⟩ := hin
  refine ⟨composeID now w1, GetId_of_advance ha, ?_, ?_, by decide⟩
  · rintro ⟨h0, h1⟩
    have hwr : wrap64 ((now - startTime) * 4194304) = (now - startTime) * 4194304 :=
      wrap64_of_range (by omega) (by omega)
    rw [composeID_eq now w1 hw0 hw1 hn0 hn1, shl64_sub64, hwr]
    refine ⟨by omega, by omega, by omega⟩
  · intro h
    have hwr : wrap64 ((now - startTime) * 4194304) = -9223372036854775808 := by
      rw [h]; decide
    rw [composeID_eq now w1 hw0 hw1 hn0 hn1, shl64_sub64, hwr, h]
    refine ⟨by omega, by norm_num, by norm_num⟩

/-- Instances of C18: the first call on `NewWorker 1` under `slowClock`, inside the
range, and under `edgeClock`, at `now - startTime = 2 ^ 41`. -/
theorem usable_range_sign_bit_witness :
    Reachable ⟨0, 1, 0⟩ ∧
    (∃ id, GetId 0 slowClock 0 ⟨0, 1, 0⟩ = some (id, ⟨1681288475389, 1, 0⟩, 1) ∧
      0 ≤ id ∧ id < 2 ^ 63) ∧
    (∃ id, GetId 0 edgeClock 0 ⟨0, 1, 0⟩ = some (id, ⟨3880311730940, 1, 0⟩, 1) ∧
      id < 0) := by
  have hr : Reachable ⟨0, 1, 0⟩ := Reachable.new (show NewWorker 1 = .ok ⟨0, 1, 0⟩ from rfl)
  refine ⟨hr, ?_, ?_⟩
  · obtain ⟨id, hg, h1, _⟩ := usable_range_sign_bit hr
      (show advance 0 slowClock 0 ⟨0, 1, 0⟩
        = some (1681288475389, ⟨1681288475389, 1, 0⟩, 1) by decide)
    have h := h1 ⟨by decide, by decide⟩
    exact ⟨id, hg, h.1, h.2.1⟩
  · obtain ⟨id, hg, _, h2, _⟩ := usable_range_sign_bit hr
      (show advance 0 edgeClock 0 ⟨0, 1, 0⟩
        = some (3880311730940, ⟨3880311730940, 1, 0⟩, 1) by decide)
    exact ⟨id, hg, (h2 (by decide)).1⟩

end Snowflake
